import Mathlib

/-!
Verification of the datashare-network client core against its
natural-language specification.  The Python sources under
`dsnetclient/` are shallowly embedded: database tables become lists of
row records, SQL statements become list operations, coroutines become
pure state-passing functions, and HTTP traffic becomes an explicit list
of emitted effects.  External cryptographic primitives from the
`dsnet` core library (key derivation, addresses, wire encodings) are
modelled as abstract byte-level constructions; only the properties the
client code relies on are used.
-/

namespace Dsnet

/-- Byte strings, modelled as lists of naturals. -/
abbrev Bytes := List Nat

/-- The 3-byte short address used for notification filtering
(`PigeonHoleNotification.from_address(...).adr_hex` in the source,
which hex-encodes the first 3 bytes of the address). -/
def adrShort (a : Bytes) : Bytes := a.take 3

/-- Public key derived from a secret key (models X25519 derivation from
the external crypto library). -/
def pubKey (sk : Bytes) : Bytes := 0 :: sk

/-- Pigeonhole address derived from `key_for_hash` and the message
number (models `address = H(keyForHash ‖ counter)` of the dsnet core). -/
def phAddress (keyForHash : Bytes) (n : Nat) : Bytes := keyForHash ++ [n]

/-- Row of the `token` table (`models.py`): primary key `secret_key`,
payload `token`, plus a `timestamp`. -/
structure TokenRow where
  secret_key : Bytes
  token : Bytes
  timestamp : Nat
deriving Repr, DecidableEq

/-- The in-memory `AbeToken` (secret key / blind signature pair)
returned by the repository token operations. -/
structure AbeToken where
  secret_key : Bytes
  token : Bytes
deriving Repr, DecidableEq

/-- Row of the `peer` table. -/
structure PeerRow where
  id : Nat
  public_key : Bytes
deriving Repr, DecidableEq

/-- Row of the `conversation` table. -/
structure ConvRow where
  id : Nat
  secret_key : Bytes
  public_key : Bytes
  other_public_key : Bytes
  querier : Bool
  created_at : Nat
  query : Option Bytes
deriving Repr, DecidableEq

/-- Row of the `message` table.  Note the schema of `models.py`: the
only key is the autoincrement `id`; `address` carries no uniqueness
constraint. -/
structure MsgRow where
  id : Nat
  address : Bytes
  timestamp : Nat
  from_key : Bytes
  payload : Bytes
  conversation_id : Nat
deriving Repr, DecidableEq

/-- Row of the `pigeonhole` table; `address` is the primary key. -/
structure PhRow where
  address : Bytes
  adr_hex : Bytes
  dh_key : Bytes
  key_for_hash : Bytes
  message_number : Nat
  conversation_id : Nat
deriving Repr, DecidableEq

/-- Row of the `publication_message` table; `public_key` carries a
UNIQUE constraint in `models.py`. -/
structure PubMsgRow where
  id : Nat
  public_key : Bytes
  cuckoo_filter : Bytes
  nym : Bytes
  nb_docs : Nat
  created_at : Nat
deriving Repr, DecidableEq

/-- The repository state: one list per table, plus the autoincrement
counters for the integer primary keys. -/
structure RepoState where
  conversations : List ConvRow
  pigeonholes : List PhRow
  messages : List MsgRow
  tokens : List TokenRow
  peers : List PeerRow
  publication_messages : List PubMsgRow
  nextConvId : Nat
  nextMsgId : Nat
  nextPubMsgId : Nat
deriving Repr, DecidableEq

/-- The empty database. -/
def RepoState.empty : RepoState :=
  ⟨[], [], [], [], [], [], 0, 0, 0⟩

/-! ### Token operations (`SqlalchemyRepository.pop_token` / `get_tokens`) -/

/-- `SELECT ... ORDER BY timestamp DESC LIMIT 1`: the first row of
maximal timestamp. -/
def newestToken : List TokenRow → Option TokenRow
  | [] => none
  | r :: rs =>
    match newestToken rs with
    | none => some r
    | some m => if m.timestamp > r.timestamp then some m else some r

/-- `SqlalchemyRepository.pop_token`: in one transaction, select the
newest-by-timestamp token row, delete every row whose `token` column
equals its `token`, and return it as an `AbeToken`.  Returns `none` on
an empty store, leaving the state unchanged. -/
def pop_token (s : RepoState) : Option AbeToken × RepoState :=
  match newestToken s.tokens with
  | none => (none, s)
  | some r =>
    (some ⟨r.secret_key, r.token⟩,
     { s with tokens := s.tokens.filter (fun t => decide (t.token ≠ r.token)) })

/-- `SqlalchemyRepository.get_tokens`: all stored tokens. -/
def get_tokens (s : RepoState) : List AbeToken :=
  s.tokens.map (fun r => ⟨r.secret_key, r.token⟩)

/-- Results of `k` successive `pop_token` calls (the successfully
returned tokens, in order). -/
def popResults : Nat → RepoState → List AbeToken
  | 0, _ => []
  | k + 1, s =>
    match pop_token s with
    | (none, s2) => popResults k s2
    | (some t, s2) => t :: popResults k s2

theorem newestToken_eq_none {l : List TokenRow} (h : newestToken l = none) :
    l = [] := by
  cases l with
  | nil => rfl
  | cons a l =>
    simp only [newestToken] at h
    cases hm : newestToken l with
    | none => rw [hm] at h; cases h
    | some m =>
      rw [hm] at h
      by_cases hc : m.timestamp > a.timestamp
      · simp [hc] at h
      · simp [hc] at h

theorem newestToken_spec :
    ∀ (l : List TokenRow) (r : TokenRow), newestToken l = some r →
      r ∈ l ∧ ∀ q ∈ l, q.timestamp ≤ r.timestamp := by
  intro l
  induction l with
  | nil => intro r h; simp [newestToken] at h
  | cons a l ih =>
    intro r h
    simp only [newestToken] at h
    cases hm : newestToken l with
    | none =>
      rw [hm] at h
      have hl : l = [] := newestToken_eq_none hm
      subst hl
      cases h
      exact ⟨List.mem_cons_self _ _, by intro q hq; simp at hq; subst hq; exact le_refl _⟩
    | some m =>
      rw [hm] at h
      rcases ih m hm with ⟨hmem, hmax⟩
      by_cases hc : m.timestamp > a.timestamp
      · simp only [hc, if_pos] at h
        cases h
        refine ⟨List.mem_cons_of_mem _ hmem, ?_⟩
        intro q hq
        rcases List.mem_cons.mp hq with hqa | hql
        · subst hqa; exact le_of_lt hc
        · exact hmax q hql
      · simp only [hc, if_neg, not_false_iff] at h
        cases h
        refine ⟨List.mem_cons_self _ _, ?_⟩
        intro q hq
        rcases List.mem_cons.mp hq with hqa | hql
        · subst hqa; exact le_refl _
        · exact le_trans (hmax q hql) (le_of_not_lt hc)

theorem newestToken_mem {l : List TokenRow} {r : TokenRow}
    (h : newestToken l = some r) : r ∈ l :=
  (newestToken_spec l r h).1

theorem newestToken_maximal {l : List TokenRow} {r : TokenRow}
    (h : newestToken l = some r) : ∀ q ∈ l, q.timestamp ≤ r.timestamp :=
  (newestToken_spec l r h).2

/-- Absence of a token value from the store. -/
def tokenAbsent (b : Bytes) (s : RepoState) : Prop :=
  ∀ r ∈ s.tokens, r.token ≠ b

theorem pop_token_absent_result {b : Bytes} {s : RepoState}
    (habs : tokenAbsent b s) :
    (∀ t s2, pop_token s = (some t, s2) → t.token ≠ b) ∧
    tokenAbsent b (pop_token s).2 := by
  unfold pop_token
  cases hm : newestToken s.tokens with
  | none =>
    refine ⟨?_, habs⟩
    intro t s2 h
    exact absurd (congrArg Prod.fst h) (by simp)
  | some r =>
    constructor
    · intro t s2 h
      have ht : t = ⟨r.secret_key, r.token⟩ := by
        have := congrArg Prod.fst h
        simpa using this.symm
      rw [ht]
      exact habs r (newestToken_mem hm)
    · intro q hq
      simp only [List.mem_filter] at hq
      exact habs q hq.1

theorem popResults_absent {b : Bytes} :
    ∀ (k : Nat) (s : RepoState), tokenAbsent b s →
      ∀ t ∈ popResults k s, t.token ≠ b := by
  intro k
  induction k with
  | zero => intro s _ t ht; simp [popResults] at ht
  | succ k ih =>
    intro s habs t ht
    simp only [popResults] at ht
    rcases hp : pop_token s with ⟨o, s2⟩
    have h2 : tokenAbsent b s2 := by
      have := (pop_token_absent_result habs).2
      rw [hp] at this; exact this
    cases o with
    | none => rw [hp] at ht; exact ih s2 h2 t ht
    | some t0 =>
      rw [hp] at ht
      rcases List.mem_cons.mp ht with h | h
      · rw [h]
        exact (pop_token_absent_result habs).1 t0 s2 hp
      · exact ih s2 h2 t h

/-- Claim C3 -- `pop_token` returns a stored token of newest timestamp
and removes it: the returned token's bytes are absent from
`get_tokens` afterwards, and no later `pop_token` call ever returns a
token with the same bytes. -/
theorem pop_token_spec (s : RepoState) (t : AbeToken) (s2 : RepoState)
    (h : pop_token s = (some t, s2)) :
    (∃ r ∈ s.tokens, r.secret_key = t.secret_key ∧ r.token = t.token ∧
        ∀ q ∈ s.tokens, q.timestamp ≤ r.timestamp) ∧
    (∀ a ∈ get_tokens s2, a.token ≠ t.token) ∧
    (∀ k, ∀ a ∈ popResults k s2, a.token ≠ t.token) := by
  have hcase := h
  unfold pop_token at hcase
  cases hm : newestToken s.tokens with
  | none => rw [hm] at hcase; cases hcase
  | some r =>
    rw [hm] at hcase
    have ht : t = ⟨r.secret_key, r.token⟩ := by
      have := congrArg Prod.fst hcase
      simpa using this.symm
    have hs2 : s2 = { s with tokens := s.tokens.filter (fun q => decide (q.token ≠ r.token)) } := by
      have := congrArg Prod.snd hcase
      simpa using this.symm
    have habs : tokenAbsent t.token s2 := by
      intro q hq
      rw [hs2] at hq
      simp only [List.mem_filter, decide_eq_true_eq] at hq
      rw [ht]
      exact hq.2
    refine ⟨⟨r, newestToken_mem hm, ?_, ?_, newestToken_maximal hm⟩, ?_, ?_⟩
    · rw [ht]
    · rw [ht]
    · intro a ha
      simp only [get_tokens, List.mem_map] at ha
      rcases ha with ⟨q, hq, rfl⟩
      exact habs q hq
    · intro k a ha
      exact popResults_absent k s2 habs a ha

/-- Concrete store used as witness input for the token claims. -/
def exTokenState : RepoState :=
  { RepoState.empty with
    tokens := [⟨[1], [10], 5⟩, ⟨[2], [20], 9⟩, ⟨[3], [30], 7⟩] }

theorem pop_token_spec_witness :
    pop_token exTokenState = (some ⟨[2], [20]⟩,
      { RepoState.empty with tokens := [⟨[1], [10], 5⟩, ⟨[3], [30], 7⟩] }) ∧
    (∀ a ∈ get_tokens (pop_token exTokenState).2, a.token ≠ [20]) := by
  have h : pop_token exTokenState = (some ⟨[2], [20]⟩,
      { RepoState.empty with tokens := [⟨[1], [10], 5⟩, ⟨[3], [30], 7⟩] }) := by decide
  refine ⟨h, ?_⟩
  have := (pop_token_spec exTokenState ⟨[2], [20]⟩ _ h).2.1
  rw [h]
  exact this

/-! ### In-memory conversation objects (dsnet core classes as used by the client) -/

/-- In-memory pigeonhole (`dsnet.core.PigeonHole`): the address is not
stored but derived from `key_for_hash` and the message number. -/
structure PigeonHole where
  dh_key : Bytes
  key_for_hash : Bytes
  message_number : Nat
  conversation_id : Option Nat
deriving Repr, DecidableEq

/-- Derived pigeonhole address. -/
def PigeonHole.address (p : PigeonHole) : Bytes :=
  phAddress p.key_for_hash p.message_number

/-- In-memory pigeonhole message (`dsnet.message.PigeonHoleMessage`). -/
structure PigeonHoleMessage where
  address : Bytes
  from_key : Bytes
  payload : Bytes
  timestamp : Nat
  conversation_id : Option Nat
deriving Repr, DecidableEq

/-- In-memory conversation (`dsnet.core.Conversation`) as persisted and
reloaded by the repository: identity fields, the listening pigeonholes
(`_pigeonholes`, keyed by address) and the ordered message log
(`_messages`). -/
structure Conversation where
  id : Option Nat
  secret_key : Bytes
  public_key : Bytes
  other_public_key : Bytes
  querier : Bool
  created_at : Nat
  query : Option Bytes
  pigeonholes : List PigeonHole
  messages : List PigeonHoleMessage
deriving Repr, DecidableEq

/-! ### Saving conversations (`SqlalchemyRepository.save_conversation`) -/

/-- `SqlalchemyRepository.save_pigeonhole`: INSERT of a pigeonhole row;
a duplicate primary key (`address`) raises `IntegrityError`, which is
caught and ignored. -/
def save_pigeonhole (s : RepoState) (ph : PigeonHole) (cid : Nat) : RepoState :=
  if s.pigeonholes.any (fun r => decide (r.address = ph.address)) then s
  else
    { s with pigeonholes := s.pigeonholes ++
        [⟨ph.address, adrShort ph.address, ph.dh_key, ph.key_for_hash, ph.message_number, cid⟩] }

/-- `SqlalchemyRepository._save_message`: INSERT of a message row.  The
`message` table of `models.py` has only the autoincrement `id` as key
and no uniqueness constraint on `address`, so the insert always
succeeds and always appends a fresh row. -/
def save_message (s : RepoState) (m : PigeonHoleMessage) (cid : Nat) : RepoState :=
  { s with
    messages := s.messages ++
      [⟨s.nextMsgId, m.address, m.timestamp, m.from_key, m.payload, cid⟩],
    nextMsgId := s.nextMsgId + 1 }

/-- `SqlalchemyRepository.save_conversation`: a fresh conversation
(`id is None`) inserts a conversation row; an existing one deletes the
persisted pigeonhole rows whose addresses the in-memory conversation no
longer listens on.  Then every in-memory pigeonhole is inserted
(ignoring duplicates) and every in-memory message is inserted
(unconditionally). -/
def save_conversation (s : RepoState) (c : Conversation) : RepoState :=
  let idAndState : Nat × RepoState :=
    match c.id with
    | none =>
      (s.nextConvId,
       { s with
         conversations := s.conversations ++
           [⟨s.nextConvId, c.secret_key, c.public_key, c.other_public_key,
             c.querier, c.created_at, c.query⟩],
         nextConvId := s.nextConvId + 1 })
    | some cid =>
      let memAddrs := c.pigeonholes.map PigeonHole.address
      let dbAddrs :=
        (s.pigeonholes.filter (fun r => decide (r.conversation_id = cid))).map PhRow.address
      let diff := dbAddrs.filter (fun a => decide (a ∉ memAddrs))
      (cid, { s with pigeonholes := s.pigeonholes.filter (fun r => decide (r.address ∉ diff)) })
  let s2 := c.pigeonholes.foldl (fun st ph => save_pigeonhole st ph idAndState.1) idAndState.2
  c.messages.foldl (fun st m => save_message st m idAndState.1) s2

/-! ### Loading conversations

`_create_conversation_statement` builds
`SELECT conversation.*, pigeonhole.*, message.* FROM conversation LEFT
OUTER JOIN pigeonhole ON pigeonhole.conversation_id = conversation.id
JOIN message ON message.conversation_id = conversation.id`; the inner
join with `message` means a conversation without message rows produces
no result rows.  `_merge_conversations` then groups the rows by
conversation id with Python dicts keyed by id and by address. -/

/-- One result row of the conversation loading query: the conversation
row, the outer-joined pigeonhole row (NULL when the conversation has no
pigeonholes) and the inner-joined message row. -/
abbrev JoinRow := ConvRow × Option PhRow × MsgRow

/-- The pigeonhole column of the left outer join for one conversation
row: one `none` row when the conversation has no pigeonholes, otherwise
one row per matching pigeonhole. -/
def phOptsFor (s : RepoState) (c : ConvRow) : List (Option PhRow) :=
  if (s.pigeonholes.filter (fun r => decide (r.conversation_id = c.id))).isEmpty then
    [none]
  else (s.pigeonholes.filter (fun r => decide (r.conversation_id = c.id))).map some

/-- Rows contributed by one conversation row: the outer-joined
pigeonhole column crossed with the inner-joined message rows. -/
def rowsForConv (s : RepoState) (c : ConvRow) : List JoinRow :=
  (phOptsFor s c).flatMap (fun ph =>
    (s.messages.filter (fun m => decide (m.conversation_id = c.id))).map
      (fun m => (c, ph, m)))

/-- Result rows of `_create_conversation_statement`. -/
def convJoinRows (s : RepoState) : List JoinRow :=
  s.conversations.flatMap (fun c => rowsForConv s c)

/-- Insertion into a Python dict modelled as an association list: an
existing key keeps its position and gets the new value, a new key is
appended. -/
def upd {κ α : Type} [DecidableEq κ] (l : List (κ × α)) (k : κ) (v : α) : List (κ × α) :=
  if l.any (fun p => decide (p.1 = k)) then
    l.map (fun p => if p.1 = k then (k, v) else p)
  else l ++ [(k, v)]

/-- Dict lookup with a default (`defaultdict` access). -/
def getD {κ α : Type} [DecidableEq κ] (l : List (κ × α)) (k : κ) (d : α) : α :=
  match l.find? (fun p => decide (p.1 = k)) with
  | some p => p.2
  | none => d

/-- Accumulator of `_merge_conversations`: the `conversations`,
`ph_dict` and `messages_dict` dictionaries. -/
structure MergeAcc where
  convs : List (Nat × ConvRow)
  phs : List (Nat × List (Bytes × PigeonHole))
  msgs : List (Nat × List (Bytes × PigeonHoleMessage))

/-- Processing of one result row in `_merge_conversations`.  The
pigeonhole is recorded only when the outer join matched and `dh_key` is
truthy (non-empty); the message is always recorded, keyed by its
address, which collapses duplicate message rows. -/
def mergeStep (acc : MergeAcc) (row : JoinRow) : MergeAcc :=
  let c := row.1
  let m := row.2.2
  { convs := upd acc.convs c.id c
    phs :=
      match row.2.1 with
      | some ph =>
        if ph.dh_key = [] then acc.phs
        else upd acc.phs c.id (upd (getD acc.phs c.id [])
          ph.address ⟨ph.dh_key, ph.key_for_hash, ph.message_number, some c.id⟩)
      | none => acc.phs
    msgs := upd acc.msgs c.id (upd (getD acc.msgs c.id [])
      m.address ⟨m.address, m.from_key, m.payload, m.timestamp, some c.id⟩) }

/-- Stable insertion into an ascending-by-timestamp list. -/
def insertByTs (m : PigeonHoleMessage) :
    List PigeonHoleMessage → List PigeonHoleMessage
  | [] => [m]
  | x :: xs => if m.timestamp ≤ x.timestamp then m :: x :: xs else x :: insertByTs m xs

/-- `sorted(..., key=attrgetter('timestamp'))`: stable ascending sort. -/
def sortByTs : List PigeonHoleMessage → List PigeonHoleMessage
  | [] => []
  | x :: xs => insertByTs x (sortByTs xs)

/-- `_merge_conversations`: fold the rows through the dictionaries,
then rebuild one `Conversation` per distinct conversation id, its
public key re-derived from the secret key, its messages sorted by
timestamp. -/
def mergeConversations (rows : List JoinRow) : List Conversation :=
  let acc := rows.foldl mergeStep ⟨[], [], []⟩
  acc.convs.map (fun p =>
    { id := some p.1
      secret_key := p.2.secret_key
      public_key := pubKey p.2.secret_key
      other_public_key := p.2.other_public_key
      querier := p.2.querier
      created_at := p.2.created_at
      query := p.2.query
      pigeonholes := (getD acc.phs p.1 []).map Prod.snd
      messages := sortByTs ((getD acc.msgs p.1 []).map Prod.snd) })

/-- `SqlalchemyRepository.get_conversations` (no filter). -/
def get_conversations (s : RepoState) : List Conversation :=
  mergeConversations (convJoinRows s)

/-- `SqlalchemyRepository.get_conversation` (by id). -/
def get_conversation (s : RepoState) (i : Nat) : Option Conversation :=
  (mergeConversations ((convJoinRows s).filter (fun r => decide (r.1.id = i)))).head?

/-- `SqlalchemyRepository.get_conversation_by_key`. -/
def get_conversation_by_key (s : RepoState) (pk : Bytes) : Option Conversation :=
  (mergeConversations ((convJoinRows s).filter
    (fun r => decide (r.1.public_key = pk)))).head?

/-- `SqlalchemyRepository.get_conversation_by_address` (filter on the
outer-joined pigeonhole's address; a NULL pigeonhole never matches). -/
def get_conversation_by_address (s : RepoState) (a : Bytes) : Option Conversation :=
  (mergeConversations ((convJoinRows s).filter (fun r =>
    match r.2.1 with
    | some ph => decide (ph.address = a)
    | none => false))).head?

/-- `SqlalchemyRepository.get_pigeonholes_by_adr`: the listening
pigeonholes whose stored short address equals the notification's. -/
def get_pigeonholes_by_adr (s : RepoState) (adr : Bytes) : List PigeonHole :=
  (s.pigeonholes.filter (fun r => decide (r.adr_hex = adr))).map
    (fun r => ⟨r.dh_key, r.key_for_hash, r.message_number, some r.conversation_id⟩)

/-! ### Publication messages (`SqlalchemyRepository.save_publication_message`) -/

/-- Database errors surfaced by the embedding. -/
inductive DbError
  | integrityError
deriving Repr, DecidableEq

/-- In-memory `dsnet.message.PublicationMessage`. -/
structure PublicationMessage where
  nym : Bytes
  public_key : Bytes
  cuckoo_filter : Bytes
  num_documents : Nat
deriving Repr, DecidableEq

/-- `SqlalchemyRepository.save_publication_message`: a plain INSERT.
Under the schema of `models.py` the `public_key` column is UNIQUE with
no conflict clause, so inserting a second row with the same public key
raises `IntegrityError`, which the method does not catch. -/
def save_publication_message (s : RepoState) (pm : PublicationMessage) (now : Nat) :
    Except DbError RepoState :=
  if s.publication_messages.any (fun r => decide (r.public_key = pm.public_key)) then
    Except.error DbError.integrityError
  else
    Except.ok
      { s with
        publication_messages := s.publication_messages ++
          [⟨s.nextPubMsgId, pm.public_key, pm.cuckoo_filter, pm.nym, pm.num_documents, now⟩],
        nextPubMsgId := s.nextPubMsgId + 1 }

/-! ### Query issuance (`DsnetApi.send_query`) -/

/-- An X25519 key pair. -/
structure KeyPair where
  secret : Bytes
  public : Bytes
deriving Repr, DecidableEq

/-- HTTP traffic emitted by the client, as observable effects. -/
inductive Effect
  | broadcast (payload : Bytes)
  | phPost (address : Bytes) (payload : Bytes)
  | phGet (address : Bytes)
deriving Repr, DecidableEq

def Effect.isBroadcast : Effect → Bool
  | .broadcast _ => true
  | _ => false

/-- Errors raised by the API layer. -/
inductive ApiError
  | noToken
deriving Repr, DecidableEq

/-- Result of an API call: the raised error if any, the repository
state afterwards, and the HTTP effects emitted. -/
structure Outcome where
  err : Option ApiError
  state : RepoState
  effects : List Effect
deriving Repr, DecidableEq

/-- Shared ECDH secret (models X25519 ECDH of the dsnet core). -/
def dhShared (sk pk : Bytes) : Bytes := sk ++ pk

/-- Ratchet slot key (models the HKDF chain of the dsnet core). -/
def slotKey (sharedSecret : Bytes) (n : Nat) : Bytes := sharedSecret ++ [n]

/-- `Conversation.create_from_querier` of the dsnet core, as used by
`send_query`: a querier-role conversation keyed by the ephemeral query
key pair, holding the query, listening on the incoming slot-0
pigeonhole and logging the outgoing query as its first message
(`nbSent = 1`). -/
def create_from_querier (qk : KeyPair) (otherPub : Bytes) (q : Bytes) (now : Nat) :
    Conversation :=
  let sh := dhShared qk.secret otherPub
  { id := none
    secret_key := qk.secret
    public_key := qk.public
    other_public_key := otherPub
    querier := true
    created_at := now
    query := some q
    pigeonholes := [⟨slotKey sh 0, slotKey sh 0, 0, none⟩]
    messages := [⟨phAddress (slotKey sh 0) 0, qk.public, q, now, none⟩] }

/-- Wire encoding of the broadcast `Query` message
(`conv.create_query(abe_token).to_bytes()`): the ephemeral public key,
the payload and the token material. -/
def query_wire (qk : KeyPair) (q : Bytes) (tok : AbeToken) : Bytes :=
  qk.public ++ q ++ tok.token

/-- The peer loop of `send_query`: for each peer, build a querier
conversation from the same ephemeral key pair and persist it; on the
last iteration only (`idx == len(peers) - 1`), POST the query to
`/bb/broadcast`. -/
def sendQueryLoop (qk : KeyPair) (q : Bytes) (now : Nat) (tok : AbeToken) :
    RepoState → List PeerRow → Nat → Nat → RepoState × List Effect
  | s, [], _, _ => (s, [])
  | s, p :: rest, idx, total =>
    let conv := create_from_querier qk p.public_key q now
    let s2 := save_conversation s conv
    let effs := if idx = total - 1 then [Effect.broadcast (query_wire qk q tok)] else []
    let r := sendQueryLoop qk q now tok s2 rest (idx + 1) total
    (r.1, effs ++ r.2)

/-- `DsnetApi.send_query`: pop one token (raising `NoTokenException`
when the store is empty), then run the peer loop. -/
def send_query (s : RepoState) (qk : KeyPair) (q : Bytes) (now : Nat) : Outcome :=
  match pop_token s with
  | (none, s1) => ⟨some ApiError.noToken, s1, []⟩
  | (some tok, s1) =>
    let r := sendQueryLoop qk q now tok s1 s1.peers 0 s1.peers.length
    ⟨none, r.1, r.2⟩

/-! ### Message retrieval (`AddressMatchMessageRetriever.retrieve`) -/

/-- Errors escaping the retriever: `attributeError` models the Python
`AttributeError` raised when `get_conversation_by_address` returns
`None` and `add_message` is called on it. -/
inductive RetrieveError
  | attributeError
deriving Repr, DecidableEq

/-- `PigeonHoleMessage.from_bytes` over the wire format
`tag ‖ address(32) ‖ fromKey(32) ‖ payload`, time-stamped at receipt. -/
def phMessageFromBytes (b : Bytes) (now : Nat) : PigeonHoleMessage :=
  { address := (b.drop 1).take 32
    from_key := (b.drop 33).take 32
    payload := b.drop 65
    timestamp := now
    conversation_id := none }

/-- `Conversation.add_message` of the dsnet core, as used by the
retriever: append the received message to the conversation's log. -/
def addMessage (c : Conversation) (m : PigeonHoleMessage) : Conversation :=
  { c with messages := c.messages ++ [m] }

/-- The body of the retriever's loop over the matching pigeonholes:
GET `/ph/{address}`, decode the body, stamp the pigeonhole's
`key_for_hash` as sender key, fetch the conversation listening on the
address, append the message and persist.  A missing conversation makes
the attribute access fail. -/
def retrieveLoop (fetch : Bytes → Bytes) (now : Nat) :
    RepoState → List PigeonHole → Except RetrieveError (RepoState × List Effect)
  | s, [] => Except.ok (s, [])
  | s, ph :: rest =>
    match get_conversation_by_address s ph.address with
    | none => Except.error RetrieveError.attributeError
    | some conv =>
      match retrieveLoop fetch now
          (save_conversation s (addMessage conv
            { phMessageFromBytes (fetch ph.address) now with
              from_key := ph.key_for_hash })) rest with
      | Except.error e => Except.error e
      | Except.ok r => Except.ok (r.1, Effect.phGet ph.address :: r.2)

/-- `AddressMatchMessageRetriever.retrieve`: iterate over the listening
pigeonholes matching the notification's short address and ingest each
fetched message.  The Python method body has no `return` statement, so
its value is always `None`; we type that value as the
`Option (Bytes × PigeonHole)` pair of the specified contract to compare
the two. -/
def address_match_retrieve (s : RepoState) (fetch : Bytes → Bytes) (adr : Bytes)
    (now : Nat) :
    Except RetrieveError (Option (Bytes × PigeonHole) × RepoState × List Effect) :=
  match retrieveLoop fetch now s (get_pigeonholes_by_adr s adr) with
  | Except.error e => Except.error e
  | Except.ok r => Except.ok (none, r.1, r.2)

/-! ### Cover-traffic sender (`QueueMessageSender._send_coroutine`) -/

/-- Fixed ciphertext length `PH_MESSAGE_LENGTH` imported from
`dsnet.core` (value abstract to this repository; any fixed constant). -/
def PH_MESSAGE_LENGTH : Nat := 2048

/-- `dsnet.crypto.gen_fake_address`: a random 32-byte address, the
randomness supplied as a stream. -/
def gen_fake_address (rnd : Nat → Nat) : Bytes :=
  (List.range 32).map rnd

/-- `dsnet.crypto.gen_fake_encrypted_message`: uniformly random bytes
of the requested length. -/
def gen_fake_encrypted_message (n : Nat) (rnd : Nat → Nat) : Bytes :=
  (List.range n).map rnd

/-- `QueueMessageSender._default_cover_fn`:
`PigeonHoleMessage(gen_fake_address(), gen_fake_encrypted_message(PH_MESSAGE_LENGTH))`. -/
def default_cover_fn (rndA rndC : Nat → Nat) : PigeonHoleMessage :=
  { address := gen_fake_address rndA
    from_key := []
    payload := gen_fake_encrypted_message PH_MESSAGE_LENGTH rndC
    timestamp := 0
    conversation_id := none }

/-- One iteration of `QueueMessageSender._send_coroutine`: unless
stopped, sleep `distribution()` seconds, then send the head of the
queue if any, otherwise send the cover message.  Returns the frames
sent this tick and the remaining queue. -/
def send_coroutine_tick (stopAsked : Bool) (queue : List PigeonHoleMessage)
    (cover : PigeonHoleMessage) : List PigeonHoleMessage × List PigeonHoleMessage :=
  if stopAsked then ([], queue)
  else
    match queue with
    | m :: rest => ([m], rest)
    | [] => ([cover], [])

/-! ### Coordinator loop (`DsnetApi.start_listening`) -/

/-- `MAX_ERRORS` (`nb_max_errors` in `start_listening`). -/
def nb_max_errors : Nat := 5

/-- One iteration of the `while not self.stop` loop, abstracted by its
outcome: the connection failed outright (`ClientConnectorError`: back
off and reconnect), or a WebSocket session processed `okFrames` frames
and then either closed cleanly or raised a handler error. -/
inductive WsIteration
  | connLost
  | session (okFrames : Nat) (endsInError : Bool)
deriving Repr, DecidableEq

/-- Whether an iteration ends in a handler error. -/
def WsIteration.isErr : WsIteration → Bool
  | .session _ true => true
  | _ => false

/-- The error accounting of `start_listening`: `nb_errors` is
incremented on every handler error — and never reset — and the loop
re-raises once it reaches `nb_max_errors`.  Connection losses only back
off.  `Except.error ()` is the re-raised exception; `Except.ok n` is a
run that ends (stop flag) with final error count `n`. -/
def listenLoop : Nat → List WsIteration → Except Unit Nat
  | nbErrors, [] => Except.ok nbErrors
  | nbErrors, .connLost :: rest => listenLoop nbErrors rest
  | nbErrors, .session _ false :: rest => listenLoop nbErrors rest
  | nbErrors, .session _ true :: rest =>
    if nbErrors + 1 ≥ nb_max_errors then Except.error ()
    else listenLoop (nbErrors + 1) rest

/-- A run of `start_listening` over a trace of loop iterations,
starting from `nb_errors = 0`. -/
def start_listening_run (its : List WsIteration) : Except Unit Nat :=
  listenLoop 0 its

/-- Length of the longest run of consecutive handler-error iterations
in a trace. -/
def maxConsecutiveErrors (its : List WsIteration) : Nat :=
  (its.foldl
    (fun p it => if it.isErr then (p.1 + 1, max p.2 (p.1 + 1)) else (0, p.2))
    (0, 0)).2

/-! ### Resume timestamp (`DsnetApi.start_listening` URL construction) -/

/-- Maximum of a list of timestamps. -/
def maxTs : List Nat → Option Nat
  | [] => none
  | t :: ts =>
    match maxTs ts with
    | none => some t
    | some m => some (max t m)

/-- Modelled from the spec: `getLastBroadcastTimestamp()` — called by
`DsnetApi.start_listening` and by the tests but absent from
`dsnetclient/repository.py` under `src/` — is "MAX(timestamp) over
persisted broadcasts".  Broadcasts are the persisted broadcast-borne
rows: messages and publication messages. -/
def get_last_broadcast_timestamp (s : RepoState) : Option Nat :=
  maxTs (s.messages.map MsgRow.timestamp ++
    s.publication_messages.map PubMsgRow.created_at)

/-- The notification URL chosen by `start_listening`:
`'/notifications' if last_message_ts is None else
f'/notifications?ts=...'`. -/
def notificationPath (ts : Option Nat) : String :=
  match ts with
  | none => "/notifications"
  | some t => "/notifications?ts=" ++ toString t

/-- The URL `start_listening` opens its WebSocket on. -/
def start_listening_path (s : RepoState) : String :=
  notificationPath (get_last_broadcast_timestamp s)

/-! ### Frame lemmas for the persistence operations -/

theorem save_pigeonhole_frame (s : RepoState) (ph : PigeonHole) (cid : Nat) :
    (save_pigeonhole s ph cid).conversations = s.conversations ∧
    (save_pigeonhole s ph cid).messages = s.messages ∧
    (save_pigeonhole s ph cid).tokens = s.tokens ∧
    (save_pigeonhole s ph cid).peers = s.peers ∧
    (save_pigeonhole s ph cid).nextConvId = s.nextConvId ∧
    (save_pigeonhole s ph cid).nextMsgId = s.nextMsgId := by
  unfold save_pigeonhole
  split <;> simp

theorem phFold_frame (cid : Nat) :
    ∀ (phs : List PigeonHole) (s : RepoState),
      let t := phs.foldl (fun st ph => save_pigeonhole st ph cid) s
      t.conversations = s.conversations ∧ t.messages = s.messages ∧
      t.tokens = s.tokens ∧ t.peers = s.peers ∧
      t.nextConvId = s.nextConvId ∧ t.nextMsgId = s.nextMsgId := by
  intro phs
  induction phs with
  | nil => intro s; exact ⟨rfl, rfl, rfl, rfl, rfl, rfl⟩
  | cons ph rest ih =>
    intro s
    have h1 := save_pigeonhole_frame s ph cid
    have h2 := ih (save_pigeonhole s ph cid)
    simp only [List.foldl_cons]
    exact ⟨h2.1.trans h1.1, h2.2.1.trans h1.2.1, h2.2.2.1.trans h1.2.2.1,
      h2.2.2.2.1.trans h1.2.2.2.1, h2.2.2.2.2.1.trans h1.2.2.2.2.1,
      h2.2.2.2.2.2.trans h1.2.2.2.2.2⟩

theorem save_message_frame (s : RepoState) (m : PigeonHoleMessage) (cid : Nat) :
    (save_message s m cid).conversations = s.conversations ∧
    (save_message s m cid).pigeonholes = s.pigeonholes ∧
    (save_message s m cid).tokens = s.tokens ∧
    (save_message s m cid).peers = s.peers ∧
    (save_message s m cid).nextConvId = s.nextConvId := by
  unfold save_message
  exact ⟨rfl, rfl, rfl, rfl, rfl⟩

theorem msgFold_frame (cid : Nat) :
    ∀ (ms : List PigeonHoleMessage) (s : RepoState),
      let t := ms.foldl (fun st m => save_message st m cid) s
      t.conversations = s.conversations ∧ t.pigeonholes = s.pigeonholes ∧
      t.tokens = s.tokens ∧ t.peers = s.peers ∧ t.nextConvId = s.nextConvId := by
  intro ms
  induction ms with
  | nil => intro s; exact ⟨rfl, rfl, rfl, rfl, rfl⟩
  | cons m rest ih =>
    intro s
    have h1 := save_message_frame s m cid
    have h2 := ih (save_message s m cid)
    simp only [List.foldl_cons]
    exact ⟨h2.1.trans h1.1, h2.2.1.trans h1.2.1, h2.2.2.1.trans h1.2.2.1,
      h2.2.2.2.1.trans h1.2.2.2.1, h2.2.2.2.2.trans h1.2.2.2.2⟩

/-- Projection of a message row forgetting the autoincrement id. -/
def msgSig (r : MsgRow) : Bytes × Nat × Bytes × Bytes × Nat :=
  (r.address, r.timestamp, r.from_key, r.payload, r.conversation_id)

theorem msgFold_sig (cid : Nat) :
    ∀ (ms : List PigeonHoleMessage) (s : RepoState),
      ((ms.foldl (fun st m => save_message st m cid) s).messages).map msgSig =
        s.messages.map msgSig ++
          ms.map (fun m => (m.address, m.timestamp, m.from_key, m.payload, cid)) := by
  intro ms
  induction ms with
  | nil => intro s; simp
  | cons m rest ih =>
    intro s
    simp only [List.foldl_cons, List.map_cons]
    rw [ih (save_message s m cid)]
    simp [save_message, msgSig]

/-! ### Claim C9: no-token failure is side-effect free -/

/-- Claim C9 -- issuing a query on an empty token store raises the
no-token error before any side effect: the repository state is returned
unchanged and no HTTP request is made. -/
theorem send_query_no_token (s : RepoState) (qk : KeyPair) (q : Bytes) (now : Nat)
    (h : s.tokens = []) :
    send_query s qk q now = ⟨some ApiError.noToken, s, []⟩ := by
  have hp : pop_token s = (none, s) := by
    unfold pop_token
    rw [h]
    rfl
  unfold send_query
  rw [hp]

theorem send_query_no_token_witness :
    send_query RepoState.empty ⟨[1], [0, 1]⟩ [9] 3 =
      ⟨some ApiError.noToken, RepoState.empty, []⟩ :=
  send_query_no_token RepoState.empty ⟨[1], [0, 1]⟩ [9] 3 rfl

/-! ### Claim C6: duplicate publication message -/

/-- The publication message of scenario S6, saved twice. -/
def exPubMsg : PublicationMessage := ⟨[110], [42], [7], 1⟩

/-- The repository after the first save of `exPubMsg`. -/
def exPubState1 : RepoState :=
  { RepoState.empty with
    publication_messages := [⟨0, [42], [7], [110], 1, 0⟩],
    nextPubMsgId := 1 }

/-- Claim C6 fails on the code under `src/`: with the `models.py`
schema (UNIQUE on `public_key`, no conflict clause) the second
`save_publication_message` of the same message raises `IntegrityError`
instead of silently keeping one row.  The repository's own test
(`test_save_and_get_publication_message_on_conflict_do_nothing`) and
its migration (`UniqueConstraint('public_key', sqlite_on_conflict="IGNORE")`)
require the insert-ignore behaviour the claim states. -/
theorem save_publication_message_duplicate_raises :
    save_publication_message RepoState.empty exPubMsg 0 = Except.ok exPubState1 ∧
    save_publication_message exPubState1 exPubMsg 1 =
      Except.error DbError.integrityError ∧
    exPubState1.publication_messages.length = 1 :=
  ⟨rfl, rfl, rfl⟩

/-! ### Claim C8: one frame per cover-traffic tick -/

/-- Claim C8 -- each non-stopped tick of the cover-traffic queue sender
emits exactly one frame: the head of the queue when non-empty,
otherwise the default cover message, whose address is the fake address
and whose ciphertext has length `PH_MESSAGE_LENGTH`. -/
theorem send_coroutine_tick_spec (queue : List PigeonHoleMessage)
    (rndA rndC : Nat → Nat) :
    (send_coroutine_tick false queue (default_cover_fn rndA rndC)).1.length = 1 ∧
    (∀ m rest, queue = m :: rest →
       send_coroutine_tick false queue (default_cover_fn rndA rndC) = ([m], rest)) ∧
    (queue = [] →
       send_coroutine_tick false queue (default_cover_fn rndA rndC) =
         ([default_cover_fn rndA rndC], []) ∧
       (default_cover_fn rndA rndC).payload.length = PH_MESSAGE_LENGTH ∧
       (default_cover_fn rndA rndC).address = gen_fake_address rndA) := by
  refine ⟨?_, ?_, ?_⟩
  · cases queue <;> simp [send_coroutine_tick]
  · intro m rest hq
    subst hq
    simp [send_coroutine_tick]
  · intro hq
    subst hq
    refine ⟨by simp [send_coroutine_tick], ?_, rfl⟩
    simp [default_cover_fn, gen_fake_encrypted_message]

theorem send_coroutine_tick_spec_witness :
    send_coroutine_tick false [] (default_cover_fn id id) =
      ([default_cover_fn id id], []) ∧
    (default_cover_fn id id).payload.length = PH_MESSAGE_LENGTH :=
  ⟨((send_coroutine_tick_spec [] id id).2.2 rfl).1,
   ((send_coroutine_tick_spec [] id id).2.2 rfl).2.1⟩

/-! ### Claim C7: coordinator abort condition -/

theorem isErr_session (n : Nat) (e : Bool) :
    WsIteration.isErr (.session n e) = e := by
  cases e <;> rfl

theorem isErr_connLost : WsIteration.isErr .connLost = false := rfl

theorem listenLoop_error_iff :
    ∀ (its : List WsIteration) (k : Nat), k < nb_max_errors →
      (listenLoop k its = Except.error () ↔
        nb_max_errors ≤ k + its.countP WsIteration.isErr) := by
  intro its
  induction its with
  | nil =>
    intro k hk
    simp only [listenLoop, List.countP_nil, Nat.add_zero]
    constructor
    · intro h; cases h
    · intro h; exact absurd h (by omega)
  | cons it rest ih =>
    intro k hk
    cases it with
    | connLost =>
      rw [show listenLoop k (WsIteration.connLost :: rest) = listenLoop k rest from rfl]
      rw [ih k hk, List.countP_cons]
      simp [isErr_connLost]
    | session n e =>
      cases e with
      | false =>
        rw [show listenLoop k (WsIteration.session n false :: rest) =
              listenLoop k rest from rfl]
        rw [ih k hk, List.countP_cons]
        simp [isErr_session]
      | true =>
        rw [show listenLoop k (WsIteration.session n true :: rest) =
              (if k + 1 ≥ nb_max_errors then Except.error ()
               else listenLoop (k + 1) rest) from rfl]
        rw [List.countP_cons]
        simp only [isErr_session, if_true]
        by_cases hge : nb_max_errors ≤ k + 1
        · rw [if_pos hge]
          constructor
          · intro _; omega
          · intro _; rfl
        · rw [if_neg hge]
          rw [ih (k + 1) (by omega)]
          omega

/-- Corrected claim C7 -- the listening loop re-raises exactly when the
cumulative number of handler errors in the run reaches
`MAX_ERRORS = 5`; the counter is never reset by successfully processed
frames, and pure connection losses are not counted. -/
theorem start_listening_abort_condition (its : List WsIteration) :
    start_listening_run its = Except.error () ↔
      nb_max_errors ≤ its.countP WsIteration.isErr := by
  have h := listenLoop_error_iff its 0 (by decide)
  simpa [start_listening_run] using h

/-- A trace with five handler errors, each separated by a successfully
processed session or a pure connection loss: no two errors are
consecutive. -/
def exTrace : List WsIteration :=
  [.session 1 true, .session 3 false, .session 1 true, .session 2 false,
   .session 1 true, .connLost, .session 1 true, .session 4 false, .session 1 true]

/-- Counterexample to claim C7 as stated: this run's longest streak of
consecutive handler errors is 1 < 5, yet the loop aborts, because
`nb_errors` in `start_listening` is cumulative and never reset. -/
theorem start_listening_consecutive_counterexample :
    start_listening_run exTrace = Except.error () ∧
    maxConsecutiveErrors exTrace = 1 ∧
    1 < nb_max_errors :=
  ⟨rfl, rfl, by decide⟩

/-! ### Claim C5: resume-from-timestamp URL -/

theorem maxTs_eq_none {l : List Nat} : maxTs l = none ↔ l = [] := by
  constructor
  · intro h
    cases l with
    | nil => rfl
    | cons t ts =>
      simp only [maxTs] at h
      cases hm : maxTs ts with
      | none => rw [hm] at h; cases h
      | some m => rw [hm] at h; cases h
  · intro h; rw [h]; rfl

theorem maxTs_spec :
    ∀ (l : List Nat) (t : Nat), maxTs l = some t → t ∈ l ∧ ∀ u ∈ l, u ≤ t := by
  intro l
  induction l with
  | nil => intro t h; cases h
  | cons a l ih =>
    intro t h
    simp only [maxTs] at h
    cases hm : maxTs l with
    | none =>
      rw [hm] at h
      have hl : l = [] := maxTs_eq_none.mp hm
      subst hl
      cases h
      exact ⟨List.mem_cons_self _ _, by intro u hu; simp at hu; subst hu; exact le_refl _⟩
    | some m =>
      rw [hm] at h
      cases h
      rcases ih m hm with ⟨hmem, hmax⟩
      constructor
      · rcases max_choice a m with hc | hc
        · rw [hc]; exact List.mem_cons_self _ _
        · rw [hc]; exact List.mem_cons_of_mem _ hmem
      · intro u hu
        rcases List.mem_cons.mp hu with rfl | hul
        · exact le_max_left _ _
        · exact le_trans (hmax u hul) (le_max_right _ _)

/-- Claim C5 -- `start_listening` opens the notification WebSocket with
`?ts=<timestamp>` exactly when `get_last_broadcast_timestamp` — the
maximum timestamp over the persisted broadcast rows — is not `None`,
and on the bare `/notifications` URL otherwise. -/
theorem start_listening_resume_url (s : RepoState) :
    (get_last_broadcast_timestamp s = none ↔
      s.messages = [] ∧ s.publication_messages = []) ∧
    (get_last_broadcast_timestamp s = none →
      start_listening_path s = "/notifications") ∧
    (∀ t, get_last_broadcast_timestamp s = some t →
      start_listening_path s = "/notifications?ts=" ++ toString t ∧
      t ∈ s.messages.map MsgRow.timestamp ++
            s.publication_messages.map PubMsgRow.created_at ∧
      ∀ u ∈ s.messages.map MsgRow.timestamp ++
            s.publication_messages.map PubMsgRow.created_at, u ≤ t) := by
  refine ⟨?_, ?_, ?_⟩
  · unfold get_last_broadcast_timestamp
    rw [maxTs_eq_none]
    simp
  · intro h
    unfold start_listening_path
    rw [h]
    rfl
  · intro t h
    refine ⟨?_, ?_, ?_⟩
    · unfold start_listening_path
      rw [h]
      rfl
    · exact (maxTs_spec _ t h).1
    · exact (maxTs_spec _ t h).2

/-- Repository with one persisted broadcast (a publication message at
timestamp 11) used as witness input. -/
def exBroadcastState : RepoState :=
  { RepoState.empty with
    publication_messages := [⟨0, [42], [7], [110], 1, 11⟩],
    nextPubMsgId := 1 }

theorem start_listening_resume_url_witness :
    start_listening_path exBroadcastState = "/notifications?ts=" ++ toString 11 ∧
    start_listening_path RepoState.empty = "/notifications" := by
  refine ⟨?_, ?_⟩
  · exact ((start_listening_resume_url exBroadcastState).2.2 11 (by decide)).1
  · exact (start_listening_resume_url RepoState.empty).2.1 (by decide)

/-! ### Claim C1: query issuance -/

/-- Projection of a conversation row onto the fields claim C1 talks
about: the peer key, the querier role and the ephemeral key pair. -/
def convSig (c : ConvRow) : Bytes × Bool × Bytes × Bytes :=
  (c.other_public_key, c.querier, c.secret_key, c.public_key)

theorem saveFolds_frame (c : Conversation) (cid : Nat) (s0 : RepoState) :
    let t := c.messages.foldl (fun st m => save_message st m cid)
      (c.pigeonholes.foldl (fun st ph => save_pigeonhole st ph cid) s0)
    t.conversations = s0.conversations ∧ t.tokens = s0.tokens ∧
    t.peers = s0.peers := by
  intro t
  have h1 := phFold_frame cid c.pigeonholes s0
  have h2 := msgFold_frame cid c.messages
    (c.pigeonholes.foldl (fun st ph => save_pigeonhole st ph cid) s0)
  exact ⟨h2.1.trans h1.1, h2.2.2.1.trans h1.2.2.1, h2.2.2.2.1.trans h1.2.2.2.1⟩

theorem save_conversation_fresh (s : RepoState) (c : Conversation)
    (hid : c.id = none) :
    (save_conversation s c).conversations =
      s.conversations ++ [⟨s.nextConvId, c.secret_key, c.public_key,
        c.other_public_key, c.querier, c.created_at, c.query⟩] ∧
    (save_conversation s c).tokens = s.tokens ∧
    (save_conversation s c).peers = s.peers := by
  have hdef : save_conversation s c =
      c.messages.foldl (fun st m => save_message st m s.nextConvId)
        (c.pigeonholes.foldl (fun st ph => save_pigeonhole st ph s.nextConvId)
          { s with
            conversations := s.conversations ++ [⟨s.nextConvId, c.secret_key,
              c.public_key, c.other_public_key, c.querier, c.created_at, c.query⟩],
            nextConvId := s.nextConvId + 1 }) := by
    unfold save_conversation
    rw [hid]
  rw [hdef]
  exact saveFolds_frame c s.nextConvId _

theorem sendQueryLoop_state (qk : KeyPair) (q : Bytes) (now : Nat) (tok : AbeToken) :
    ∀ (ps : List PeerRow) (s : RepoState) (idx total : Nat),
      ((sendQueryLoop qk q now tok s ps idx total).1).conversations.map convSig =
        s.conversations.map convSig ++
          ps.map (fun p => (p.public_key, true, qk.secret, qk.public)) ∧
      ((sendQueryLoop qk q now tok s ps idx total).1).tokens = s.tokens := by
  intro ps
  induction ps with
  | nil => intro s idx total; simp [sendQueryLoop]
  | cons p rest ih =>
    intro s idx total
    have hsave := save_conversation_fresh s (create_from_querier qk p.public_key q now) rfl
    have ihs := ih (save_conversation s (create_from_querier qk p.public_key q now))
      (idx + 1) total
    simp only [sendQueryLoop]
    constructor
    · rw [ihs.1, hsave.1]
      simp [convSig, create_from_querier]
    · rw [ihs.2, hsave.2.1]

theorem sendQueryLoop_effects (qk : KeyPair) (q : Bytes) (now : Nat) (tok : AbeToken) :
    ∀ (ps : List PeerRow) (s : RepoState) (idx total : Nat),
      ps ≠ [] → idx + ps.length = total →
      (sendQueryLoop qk q now tok s ps idx total).2 =
        [Effect.broadcast (query_wire qk q tok)] := by
  intro ps
  induction ps with
  | nil => intro s idx total hne _; exact absurd rfl hne
  | cons p rest ih =>
    intro s idx total _ htot
    have hstep : (sendQueryLoop qk q now tok s (p :: rest) idx total).2 =
        (if idx = total - 1 then [Effect.broadcast (query_wire qk q tok)] else []) ++
          (sendQueryLoop qk q now tok
            (save_conversation s (create_from_querier qk p.public_key q now))
            rest (idx + 1) total).2 := rfl
    rw [hstep]
    cases rest with
    | nil =>
      have hlen : idx + 1 = total := by simpa using htot
      rw [if_pos (by omega)]
      rfl
    | cons p2 rest2 =>
      have hlen : idx + (rest2.length + 2) = total := by
        simp only [List.length_cons] at htot
        omega
      have htot2 : (idx + 1) + (p2 :: rest2).length = total := by
        simp only [List.length_cons]
        omega
      rw [if_neg (by omega)]
      rw [ih _ (idx + 1) total (by simp) htot2]
      rfl

theorem filter_ne_token_length :
    ∀ (l : List TokenRow) (r : TokenRow), r ∈ l → (l.map TokenRow.token).Nodup →
      (l.filter (fun t => decide (t.token ≠ r.token))).length + 1 = l.length := by
  intro l
  induction l with
  | nil => intro r hr; cases hr
  | cons a l ih =>
    intro r hr hnd
    rw [List.map_cons, List.nodup_cons] at hnd
    rcases List.mem_cons.mp hr with h1 | hmem
    · subst h1
      have hfl : l.filter (fun t => decide (t.token ≠ r.token)) = l := by
        rw [List.filter_eq_self]
        intro t ht
        simp only [decide_eq_true_eq]
        intro heq
        apply hnd.1
        rw [← heq]
        exact List.mem_map_of_mem _ ht
      have hstep : (r :: l).filter (fun t => decide (t.token ≠ r.token)) =
          l.filter (fun t => decide (t.token ≠ r.token)) := by
        simp [List.filter_cons]
      rw [hstep, hfl]
      simp
    · have hne : a.token ≠ r.token := by
        intro heq
        apply hnd.1
        rw [heq]
        exact List.mem_map_of_mem _ hmem
      have hstep : (a :: l).filter (fun t => decide (t.token ≠ r.token)) =
          a :: l.filter (fun t => decide (t.token ≠ r.token)) := by
        simp [List.filter_cons, hne]
      rw [hstep, List.length_cons, List.length_cons]
      have := ih r hmem hnd.2
      omega

theorem newestToken_isSome {l : List TokenRow} (h : l ≠ []) :
    ∃ r, newestToken l = some r := by
  cases hm : newestToken l with
  | none => exact absurd (newestToken_eq_none hm) h
  | some r => exact ⟨r, rfl⟩

/-- Claim C1 -- a query issuance with a non-empty peer list and at
least one stored token posts exactly one broadcast, persists exactly
one querier-role conversation per peer, all sharing the ephemeral query
key pair, and consumes exactly one token. -/
theorem send_query_spec (s : RepoState) (qk : KeyPair) (q : Bytes) (now : Nat)
    (hp : s.peers ≠ []) (ht : s.tokens ≠ [])
    (hnd : (s.tokens.map TokenRow.token).Nodup) :
    ∃ tok : AbeToken,
      (send_query s qk q now).err = none ∧
      (send_query s qk q now).effects = [Effect.broadcast (query_wire qk q tok)] ∧
      ((send_query s qk q now).state).conversations.map convSig =
        s.conversations.map convSig ++
          s.peers.map (fun p => (p.public_key, true, qk.secret, qk.public)) ∧
      ((send_query s qk q now).state).tokens.length + 1 = s.tokens.length := by
  rcases newestToken_isSome ht with ⟨r, hm⟩
  have hpop : pop_token s = (some ⟨r.secret_key, r.token⟩,
      { s with tokens := s.tokens.filter (fun t => decide (t.token ≠ r.token)) }) := by
    unfold pop_token
    rw [hm]
  have hsq : send_query s qk q now =
      ⟨none,
       (sendQueryLoop qk q now ⟨r.secret_key, r.token⟩
         { s with tokens := s.tokens.filter (fun t => decide (t.token ≠ r.token)) }
         s.peers 0 s.peers.length).1,
       (sendQueryLoop qk q now ⟨r.secret_key, r.token⟩
         { s with tokens := s.tokens.filter (fun t => decide (t.token ≠ r.token)) }
         s.peers 0 s.peers.length).2⟩ := by
    unfold send_query
    rw [hpop]
  have hstate := sendQueryLoop_state qk q now ⟨r.secret_key, r.token⟩ s.peers
    { s with tokens := s.tokens.filter (fun t => decide (t.token ≠ r.token)) }
    0 s.peers.length
  refine ⟨⟨r.secret_key, r.token⟩, ?_, ?_, ?_, ?_⟩
  · rw [hsq]
  · rw [hsq]
    exact sendQueryLoop_effects qk q now ⟨r.secret_key, r.token⟩ s.peers _ 0
      s.peers.length hp (Nat.zero_add _)
  · rw [hsq]
    exact hstate.1
  · rw [hsq]
    have hlen := filter_ne_token_length s.tokens r (newestToken_mem hm) hnd
    show (sendQueryLoop qk q now ⟨r.secret_key, r.token⟩
        { s with tokens := s.tokens.filter (fun t => decide (t.token ≠ r.token)) }
        s.peers 0 s.peers.length).1.tokens.length + 1 = s.tokens.length
    rw [hstate.2]
    exact hlen

/-- Witness input for claim C1: one peer and one stored token. -/
def exSendState : RepoState :=
  { RepoState.empty with peers := [⟨1, [2]⟩], tokens := [⟨[1], [10], 5⟩] }

/-- Witness ephemeral key pair. -/
def exQk : KeyPair := ⟨[1], [0, 1]⟩

theorem send_query_spec_witness :
    ∃ tok : AbeToken,
      (send_query exSendState exQk [9] 3).err = none ∧
      (send_query exSendState exQk [9] 3).effects =
        [Effect.broadcast (query_wire exQk [9] tok)] ∧
      ((send_query exSendState exQk [9] 3).state).conversations.map convSig =
        exSendState.conversations.map convSig ++
          exSendState.peers.map
            (fun p => (p.public_key, true, exQk.secret, exQk.public)) ∧
      ((send_query exSendState exQk [9] 3).state).tokens.length + 1 =
        exSendState.tokens.length :=
  send_query_spec exSendState exQk [9] 3 (by decide) (by decide) (by decide)

/-! ### Claim C2: re-saving a conversation -/

theorem phFold_existing (cid : Nat) :
    ∀ (phs : List PigeonHole) (s : RepoState),
      (∀ ph ∈ phs, ∃ r ∈ s.pigeonholes, r.address = ph.address) →
      phs.foldl (fun st ph => save_pigeonhole st ph cid) s = s := by
  intro phs
  induction phs with
  | nil => intro s _; rfl
  | cons ph rest ih =>
    intro s hex
    have hany : s.pigeonholes.any (fun r => decide (r.address = ph.address)) = true := by
      rcases hex ph (List.mem_cons_self _ _) with ⟨r, hr, hre⟩
      exact List.any_eq_true.mpr ⟨r, hr, by simpa using hre⟩
    have hsave : save_pigeonhole s ph cid = s := by
      unfold save_pigeonhole
      rw [if_pos hany]
    simp only [List.foldl_cons, hsave]
    exact ih s (fun ph2 h2 => hex ph2 (List.mem_cons_of_mem _ h2))

/-- Corrected claim C2 -- re-saving an already-persisted conversation
whose in-memory pigeonholes coincide with the persisted ones leaves the
conversation rows and the pigeonhole rows unchanged (pigeonhole inserts
hit the primary key and are ignored, and nothing is pruned), but
appends a fresh copy of every in-memory message as a new message row:
the `message` table has no uniqueness constraint on `address`, so
re-inserted messages duplicate instead of being ignored. -/
theorem save_conversation_resave (s : RepoState) (c : Conversation) (cid : Nat)
    (hid : c.id = some cid)
    (hph : ∀ ph ∈ c.pigeonholes, ∃ r ∈ s.pigeonholes, r.address = ph.address)
    (hdb : ∀ r ∈ s.pigeonholes, r.conversation_id = cid →
        r.address ∈ c.pigeonholes.map PigeonHole.address) :
    (save_conversation s c).conversations = s.conversations ∧
    (save_conversation s c).pigeonholes = s.pigeonholes ∧
    (save_conversation s c).messages.map msgSig =
      s.messages.map msgSig ++
        c.messages.map (fun m => (m.address, m.timestamp, m.from_key, m.payload, cid)) := by
  have hdiff : (((s.pigeonholes.filter
        (fun r2 => decide (r2.conversation_id = cid))).map PhRow.address).filter
        (fun a => decide (a ∉ c.pigeonholes.map PigeonHole.address))) = [] := by
    rw [List.filter_eq_nil_iff]
    intro a ha
    rcases List.mem_map.mp ha with ⟨r2, hr2, rfl⟩
    have hr2f := List.mem_filter.mp hr2
    simp only [decide_eq_true_eq] at hr2f
    simp only [decide_eq_true_eq, not_not]
    exact hdb r2 hr2f.1 hr2f.2
  have hbase : s.pigeonholes.filter (fun r => decide (r.address ∉
      (((s.pigeonholes.filter
        (fun r2 => decide (r2.conversation_id = cid))).map PhRow.address).filter
        (fun a => decide (a ∉ c.pigeonholes.map PigeonHole.address))))) =
      s.pigeonholes := by
    rw [hdiff, List.filter_eq_self]
    intro r _
    simp
  have hred : save_conversation s c =
      c.messages.foldl (fun st m => save_message st m cid)
        (c.pigeonholes.foldl (fun st ph => save_pigeonhole st ph cid)
          { s with pigeonholes := s.pigeonholes.filter (fun r => decide (r.address ∉
            (((s.pigeonholes.filter
              (fun r2 => decide (r2.conversation_id = cid))).map PhRow.address).filter
              (fun a => decide (a ∉ c.pigeonholes.map PigeonHole.address))))) }) := by
    unfold save_conversation
    rw [hid]
  have heta : { s with pigeonholes := s.pigeonholes } = s := rfl
  rw [hred, hbase, heta, phFold_existing cid c.pigeonholes s hph]
  exact ⟨(msgFold_frame cid c.messages s).1, (msgFold_frame cid c.messages s).2.1,
    msgFold_sig cid c.messages s⟩

/-- A fresh conversation with one pigeonhole and one message. -/
def exConv : Conversation :=
  { id := none, secret_key := [1], public_key := pubKey [1],
    other_public_key := [2], querier := true, created_at := 4,
    query := some [9],
    pigeonholes := [⟨[5], [5], 0, none⟩],
    messages := [⟨[7], pubKey [1], [9], 4, none⟩] }

/-- The conversation obtained by persisting `exConv` into the empty
repository and loading it back (`get_conversation _ 0`). -/
def exConvLoaded : Conversation :=
  { id := some 0, secret_key := [1], public_key := [0, 1],
    other_public_key := [2], querier := true, created_at := 4,
    query := some [9],
    pigeonholes := [⟨[5], [5], 0, some 0⟩],
    messages := [⟨[7], [0, 1], [9], 4, some 0⟩] }

/-- Counterexample to claim C2 as stated: persisting `exConv`, loading
it back and persisting the loaded copy does not reproduce the state
after the first save — the single message row is duplicated, because
message inserts carry no uniqueness on their address. -/
theorem save_conversation_idempotence_counterexample :
    get_conversation (save_conversation RepoState.empty exConv) 0 = some exConvLoaded ∧
    save_conversation (save_conversation RepoState.empty exConv) exConvLoaded ≠
      save_conversation RepoState.empty exConv ∧
    (save_conversation (save_conversation RepoState.empty exConv)
        exConvLoaded).messages.length = 2 ∧
    (save_conversation RepoState.empty exConv).messages.length = 1 := by
  decide

theorem save_conversation_resave_witness :
    (save_conversation (save_conversation RepoState.empty exConv)
        exConvLoaded).conversations =
      (save_conversation RepoState.empty exConv).conversations ∧
    (save_conversation (save_conversation RepoState.empty exConv)
        exConvLoaded).pigeonholes =
      (save_conversation RepoState.empty exConv).pigeonholes ∧
    (save_conversation (save_conversation RepoState.empty exConv)
        exConvLoaded).messages.map msgSig =
      (save_conversation RepoState.empty exConv).messages.map msgSig ++
        exConvLoaded.messages.map
          (fun m => (m.address, m.timestamp, m.from_key, m.payload, 0)) :=
  save_conversation_resave (save_conversation RepoState.empty exConv)
    exConvLoaded 0 rfl (by decide) (by decide)

/-! ### Claim C10: loading requires a message row -/

theorem mem_upd {κ α : Type} [DecidableEq κ] {l : List (κ × α)} {k : κ} {v : α}
    {q : κ × α} (h : q ∈ upd l k v) : q ∈ l ∨ q.1 = k := by
  unfold upd at h
  by_cases hany : l.any (fun p => decide (p.1 = k)) = true
  · rw [if_pos hany] at h
    rcases List.mem_map.mp h with ⟨p, hp, hpe⟩
    by_cases hpk : p.1 = k
    · right
      rw [← hpe]
      simp [hpk]
    · left
      rw [← hpe]
      simpa [hpk] using hp
  · rw [if_neg hany] at h
    rcases List.mem_append.mp h with h2 | h2
    · left; exact h2
    · right
      rw [List.mem_singleton.mp h2]

theorem upd_key_mem {κ α : Type} [DecidableEq κ] (l : List (κ × α)) (k : κ) (v : α) :
    ∃ q ∈ upd l k v, q.1 = k := by
  unfold upd
  by_cases hany : l.any (fun p => decide (p.1 = k)) = true
  · rw [if_pos hany]
    rcases List.any_eq_true.mp hany with ⟨p, hp, hpk⟩
    simp only [decide_eq_true_eq] at hpk
    refine ⟨(k, v), List.mem_map.mpr ⟨p, hp, ?_⟩, rfl⟩
    simp [hpk]
  · rw [if_neg hany]
    exact ⟨(k, v), List.mem_append_right _ (List.mem_singleton.mpr rfl), rfl⟩

theorem upd_preserves_key {κ α : Type} [DecidableEq κ] {l : List (κ × α)}
    {p : κ × α} (hp : p ∈ l) (k : κ) (v : α) : ∃ q ∈ upd l k v, q.1 = p.1 := by
  unfold upd
  by_cases hany : l.any (fun p2 => decide (p2.1 = k)) = true
  · rw [if_pos hany]
    refine ⟨if p.1 = k then (k, v) else p, List.mem_map.mpr ⟨p, hp, rfl⟩, ?_⟩
    by_cases hpk : p.1 = k
    · simp [hpk]
    · simp [hpk]
  · rw [if_neg hany]
    exact ⟨p, List.mem_append_left _ hp, rfl⟩

theorem mergeStep_convs (acc : MergeAcc) (row : JoinRow) :
    (mergeStep acc row).convs = upd acc.convs row.1.id row.1 := rfl

theorem mergeFold_key_sub :
    ∀ (rows : List JoinRow) (acc : MergeAcc) (q : Nat × ConvRow),
      q ∈ (rows.foldl mergeStep acc).convs →
      q.1 ∈ acc.convs.map Prod.fst ∨ ∃ row ∈ rows, row.1.id = q.1 := by
  intro rows
  induction rows with
  | nil => intro acc q hq; left; exact List.mem_map_of_mem _ hq
  | cons row rest ih =>
    intro acc q hq
    simp only [List.foldl_cons] at hq
    rcases ih (mergeStep acc row) q hq with hkey | ⟨row2, hr2, he⟩
    · rcases List.mem_map.mp hkey with ⟨p, hp, hpe⟩
      rw [mergeStep_convs] at hp
      rcases mem_upd hp with hpl | hpk
      · left
        rw [← hpe]
        exact List.mem_map_of_mem _ hpl
      · right
        exact ⟨row, List.mem_cons_self _ _, by rw [← hpe, hpk]⟩
    · right
      exact ⟨row2, List.mem_cons_of_mem _ hr2, he⟩

theorem mergeFold_key_of_row :
    ∀ (rows : List JoinRow) (acc : MergeAcc) (k : Nat),
      ((∃ row ∈ rows, row.1.id = k) ∨ (∃ p ∈ acc.convs, p.1 = k)) →
      ∃ p ∈ (rows.foldl mergeStep acc).convs, p.1 = k := by
  intro rows
  induction rows with
  | nil =>
    intro acc k h
    rcases h with ⟨row, hr, _⟩ | h2
    · cases hr
    · exact h2
  | cons row rest ih =>
    intro acc k h
    simp only [List.foldl_cons]
    apply ih
    rcases h with ⟨row2, hr2, he⟩ | ⟨p, hp, hpe⟩
    · rcases List.mem_cons.mp hr2 with h3 | h3
      · right
        rw [mergeStep_convs]
        rcases upd_key_mem acc.convs row.1.id row.1 with ⟨q, hq, hqk⟩
        refine ⟨q, hq, ?_⟩
        rw [hqk, ← he, h3]
      · left
        exact ⟨row2, h3, he⟩
    · right
      rw [mergeStep_convs]
      rcases upd_preserves_key hp row.1.id row.1 with ⟨q, hq, hqe⟩
      exact ⟨q, hq, hqe.trans hpe⟩

theorem mergeConversations_id {rows : List JoinRow} {conv : Conversation}
    (h : conv ∈ mergeConversations rows) :
    ∃ row ∈ rows, some row.1.id = conv.id := by
  unfold mergeConversations at h
  rcases List.mem_map.mp h with ⟨p, hp, hpe⟩
  rcases mergeFold_key_sub rows ⟨[], [], []⟩ p hp with hkey | ⟨row, hr, he⟩
  · simp at hkey
  · refine ⟨row, hr, ?_⟩
    rw [← hpe]
    show some row.1.id = some p.1
    rw [he]

theorem mergeConversations_mem_of_key {rows : List JoinRow} {k : Nat}
    (h : ∃ row ∈ rows, row.1.id = k) :
    ∃ conv ∈ mergeConversations rows, conv.id = some k := by
  unfold mergeConversations
  rcases mergeFold_key_of_row rows ⟨[], [], []⟩ k (Or.inl h) with ⟨p, hp, hpk⟩
  refine ⟨_, List.mem_map_of_mem _ hp, ?_⟩
  show some p.1 = some k
  rw [hpk]

theorem convJoinRows_spec {s : RepoState} {row : JoinRow}
    (h : row ∈ convJoinRows s) :
    row.1 ∈ s.conversations ∧ row.2.2 ∈ s.messages ∧
    row.2.2.conversation_id = row.1.id := by
  unfold convJoinRows at h
  rcases List.mem_flatMap.mp h with ⟨c, hc, h2⟩
  unfold rowsForConv at h2
  rcases List.mem_flatMap.mp h2 with ⟨ph, _, h3⟩
  rcases List.mem_map.mp h3 with ⟨m, hm, he⟩
  have hmf := List.mem_filter.mp hm
  rw [← he]
  exact ⟨hc, hmf.1, by simpa using hmf.2⟩

theorem phOptsFor_ne_nil (s : RepoState) (c : ConvRow) : phOptsFor s c ≠ [] := by
  unfold phOptsFor
  split
  · simp
  · intro hmap
    rename_i hne
    rw [List.map_eq_nil_iff] at hmap
    rw [hmap] at hne
    simp at hne

theorem head?_mem {α : Type} {l : List α} {a : α} (h : l.head? = some a) :
    a ∈ l := by
  cases l with
  | nil => cases h
  | cons x xs =>
    simp only [List.head?] at h
    cases h
    exact List.mem_cons_self _ _

/-- Claim C10 -- a persisted conversation with no message rows is
returned by none of the conversation getters (the loading query
inner-joins the message table), while a conversation with messages but
no pigeonholes is still returned (pigeonholes are outer-joined). -/
theorem conversation_requires_message (s : RepoState) (c : ConvRow)
    (hc : c ∈ s.conversations) :
    ((∀ m ∈ s.messages, m.conversation_id ≠ c.id) →
      get_conversation s c.id = none ∧
      (∀ conv ∈ get_conversations s, conv.id ≠ some c.id) ∧
      (∀ pk conv, get_conversation_by_key s pk = some conv → conv.id ≠ some c.id) ∧
      (∀ a conv, get_conversation_by_address s a = some conv → conv.id ≠ some c.id)) ∧
    ((∃ m ∈ s.messages, m.conversation_id = c.id) →
      ∃ conv ∈ get_conversations s, conv.id = some c.id) := by
  constructor
  · intro hnomsg
    have hnr : ∀ row ∈ convJoinRows s, row.1.id ≠ c.id := by
      intro row hrow heq
      have hs := convJoinRows_spec hrow
      exact hnomsg row.2.2 hs.2.1 (hs.2.2.trans heq)
    refine ⟨?_, ?_, ?_, ?_⟩
    · unfold get_conversation
      have hfe : (convJoinRows s).filter (fun r => decide (r.1.id = c.id)) = [] := by
        rw [List.filter_eq_nil_iff]
        intro row hrow
        simp only [decide_eq_true_eq]
        exact hnr row hrow
      rw [hfe]
      rfl
    · intro conv hconv heq
      rcases mergeConversations_id hconv with ⟨row, hrow, hrid⟩
      rw [heq] at hrid
      exact hnr row hrow (Option.some.inj hrid)
    · intro pk conv hconv heq
      have hmem := head?_mem hconv
      rcases mergeConversations_id hmem with ⟨row, hrow, hrid⟩
      rw [heq] at hrid
      exact hnr row (List.mem_of_mem_filter hrow) (Option.some.inj hrid)
    · intro a conv hconv heq
      have hmem := head?_mem hconv
      rcases mergeConversations_id hmem with ⟨row, hrow, hrid⟩
      rw [heq] at hrid
      exact hnr row (List.mem_of_mem_filter hrow) (Option.some.inj hrid)
  · intro hmsg
    rcases hmsg with ⟨m, hm, hmid⟩
    cases hpo : phOptsFor s c with
    | nil => exact absurd hpo (phOptsFor_ne_nil s c)
    | cons ph rest =>
      have hrow : ((c, ph, m) : JoinRow) ∈ convJoinRows s := by
        unfold convJoinRows
        apply List.mem_flatMap.mpr
        refine ⟨c, hc, ?_⟩
        unfold rowsForConv
        apply List.mem_flatMap.mpr
        refine ⟨ph, by rw [hpo]; exact List.mem_cons_self _ _, ?_⟩
        apply List.mem_map.mpr
        refine ⟨m, List.mem_filter.mpr ⟨hm, by simpa using hmid⟩, rfl⟩
      exact mergeConversations_mem_of_key ⟨(c, ph, m), hrow, rfl⟩

/-- A repository holding one conversation row and no message rows. -/
def exNoMsgState : RepoState :=
  { RepoState.empty with
    conversations := [⟨0, [1], [0, 1], [2], true, 4, some [9]⟩],
    nextConvId := 1 }

theorem conversation_requires_message_witness :
    get_conversation exNoMsgState 0 = none ∧
    (∀ conv ∈ get_conversations exNoMsgState, conv.id ≠ some 0) := by
  have h := (conversation_requires_message exNoMsgState
    ⟨0, [1], [0, 1], [2], true, 4, some [9]⟩ (by decide)).1
    (by intro m hm; cases hm)
  exact ⟨h.1, h.2.1⟩

/-! ### Claim C4: the address-match retriever -/

theorem retrieveLoop_effects (fetch : Bytes → Bytes) (now : Nat) :
    ∀ (phs : List PigeonHole) (s : RepoState) (r : RepoState × List Effect),
      retrieveLoop fetch now s phs = Except.ok r →
      r.2 = phs.map (fun ph => Effect.phGet ph.address) := by
  intro phs
  induction phs with
  | nil =>
    intro s r h
    cases h
    rfl
  | cons ph rest ih =>
    intro s r h
    unfold retrieveLoop at h
    cases hc : get_conversation_by_address s ph.address with
    | none =>
      rw [hc] at h
      cases h
    | some conv =>
      rw [hc] at h
      have h2 : (match retrieveLoop fetch now
          (save_conversation s (addMessage conv
            { phMessageFromBytes (fetch ph.address) now with
              from_key := ph.key_for_hash })) rest with
        | Except.error e => Except.error e
        | Except.ok r0 => Except.ok (r0.1, Effect.phGet ph.address :: r0.2)) =
          Except.ok r := h
      cases hrec : retrieveLoop fetch now
          (save_conversation s (addMessage conv
            { phMessageFromBytes (fetch ph.address) now with
              from_key := ph.key_for_hash })) rest with
      | error e =>
        rw [hrec] at h2
        cases h2
      | ok r2 =>
        rw [hrec] at h2
        cases h2
        simp only [List.map_cons]
        rw [ih _ r2 hrec]

/-- Amended claim C4 -- whenever the address-match retriever's
`retrieve` completes, its value is `None` (never the specified
`(body, pigeonhole)` pair): instead it performs one GET per pigeonhole
matching the notification's short address, ingesting each fetched
message itself; when no pigeonhole matches, it makes no request and
returns the repository unchanged. -/
theorem address_match_retrieve_spec (s : RepoState) (fetch : Bytes → Bytes)
    (adr : Bytes) (now : Nat)
    (r : Option (Bytes × PigeonHole) × RepoState × List Effect)
    (h : address_match_retrieve s fetch adr now = Except.ok r) :
    r.1 = none ∧
    r.2.2 = (get_pigeonholes_by_adr s adr).map (fun ph => Effect.phGet ph.address) ∧
    (get_pigeonholes_by_adr s adr = [] → r.2.1 = s ∧ r.2.2 = []) := by
  unfold address_match_retrieve at h
  cases hl : retrieveLoop fetch now s (get_pigeonholes_by_adr s adr) with
  | error e =>
    rw [hl] at h
    cases h
  | ok r0 =>
    rw [hl] at h
    cases h
    refine ⟨rfl, retrieveLoop_effects fetch now _ s r0 hl, ?_⟩
    intro hnil
    rw [hnil] at hl
    cases hl
    exact ⟨rfl, rfl⟩

/-- The HTTP body served for every pigeonhole address in the witness
scenario. -/
def exFetch : Bytes → Bytes := fun _ => [0, 8, 8]

/-- The repository state produced by the retriever in the witness
scenario: the fetched message ingested (and the existing message row
duplicated by the re-save). -/
def exRetrieved : RepoState :=
  { conversations := [⟨0, [1], [0, 1], [2], true, 4, some [9]⟩],
    pigeonholes := [⟨[5, 0], [5, 0], [5], [5], 0, 0⟩],
    messages := [⟨0, [7], 4, [0, 1], [9], 0⟩, ⟨1, [7], 4, [0, 1], [9], 0⟩,
      ⟨2, [8, 8], 9, [5], [], 0⟩],
    tokens := [], peers := [], publication_messages := [],
    nextConvId := 1, nextMsgId := 3, nextPubMsgId := 0 }

/-- Counterexample to claim C4 as stated: in this state a listening
pigeonhole matches the notification's short address, yet `retrieve`
returns `None` instead of the pair of the fetched body and the first
matching pigeonhole. -/
theorem address_match_contract_counterexample :
    get_pigeonholes_by_adr (save_conversation RepoState.empty exConv) [5, 0] ≠ [] ∧
    address_match_retrieve (save_conversation RepoState.empty exConv)
      exFetch [5, 0] 9 = Except.ok (none, exRetrieved, [Effect.phGet [5, 0]]) :=
  ⟨by decide, rfl⟩

theorem address_match_retrieve_spec_witness :
    ((none, exRetrieved, [Effect.phGet [5, 0]]) :
        Option (Bytes × PigeonHole) × RepoState × List Effect).1 = none ∧
    ((none, exRetrieved, [Effect.phGet [5, 0]]) :
        Option (Bytes × PigeonHole) × RepoState × List Effect).2.2 =
      (get_pigeonholes_by_adr (save_conversation RepoState.empty exConv)
        [5, 0]).map (fun ph => Effect.phGet ph.address) ∧
    (get_pigeonholes_by_adr (save_conversation RepoState.empty exConv) [5, 0] = [] →
      ((none, exRetrieved, [Effect.phGet [5, 0]]) :
        Option (Bytes × PigeonHole) × RepoState × List Effect).2.1 =
          save_conversation RepoState.empty exConv ∧
      ((none, exRetrieved, [Effect.phGet [5, 0]]) :
        Option (Bytes × PigeonHole) × RepoState × List Effect).2.2 = []) :=
  address_match_retrieve_spec (save_conversation RepoState.empty exConv)
    exFetch [5, 0] 9 (none, exRetrieved, [Effect.phGet [5, 0]]) rfl

end Dsnet
